import Mathlib

/-
Verification of the AionUi ACP Session Bridge.

The definitions below are a shallow embedding of the TypeScript sources:
  - src/process/task/AcpAgentManager.ts   (bootstrap caching, stream-event
    dispatch, history-index reconciliation, sendMessage, edit/regenerate,
    completeCommand)
  - src/renderer/messages/MessageList.tsx (resolveHistoryIndex,
    HISTORY_MESSAGE_OFFSET, isEditableTextMessage)
  - src/process/bridge/acpConversationBridge.ts (completeCommand provider)

External collaborators (the Connection Adapter, the transformMessage mapping
function, the preview-open interceptor) are taken as parameters, mirroring the
spec's "external collaborator" treatment.  JavaScript truthiness of optional
strings is modelled explicitly by optStringTruthy.
-/

namespace AionUi

/-- Message side, mirroring TMessage.position: left = agent, right = user,
center / pop = system notices. -/
inductive Side
  | left
  | right
  | center
  | pop
deriving DecidableEq, Fintype

/-- Message kind tags that occur in the renderer's TMessage union. -/
inductive MsgType
  | text
  | tips
  | tool_call
  | tool_group
  | agent_status
  | acp_notice
  | acp_permission
  | acp_tool_call
  | codex_permission
  | codex_tool_call
deriving DecidableEq, Fintype

/-- A transcript message (the fields of TMessage that the verified code
reads or writes).  historyIndex is absent until backfilled. -/
structure Msg where
  id : String
  msgId : Option String := none
  type : MsgType
  position : Side
  conversationId : String := ""
  content : String := ""
  historyIndex : Option Int := none
  createdAt : Nat := 0
deriving DecidableEq

/-- JavaScript truthiness of an optional string value (undefined / null and
the empty string are falsy). -/
def optStringTruthy : Option String → Bool
  | some s => !(s == "")
  | none => false

/-! History-index reconciliation (AcpAgentManager.applyHistoryIndexUpdate). -/

/-- The condition of the backward scan in applyHistoryIndexUpdate:
msg.type === 'text' && msg.position === side && typeof msg.historyIndex !== 'number'. -/
def isHistoryTarget (s : Side) (m : Msg) : Bool :=
  m.type == .text && m.position == s && m.historyIndex == none

/-- updated[i] = { ...msg, historyIndex: value }. -/
def setHistoryIndex (v : Int) (m : Msg) : Msg :=
  { m with historyIndex := some v }

/-- Helper for the backward scan: operates on the reversed list, assigning the
value to the first matching message and stopping (the source's reverse for
loop with break). -/
def assignRev (s : Side) (v : Int) : List Msg → List Msg
  | [] => []
  | m :: rest =>
    if isHistoryTarget s m then setHistoryIndex v m :: rest
    else m :: assignRev s v rest

/-- One side's scan of applyHistoryIndexUpdate: walk the transcript from the
most recent entry backward and assign the index to the first unindexed
plain-text message of the given side, stopping after the first match. -/
def assignLastUnindexed (s : Side) (v : Int) (l : List Msg) : List Msg :=
  (assignRev s v l.reverse).reverse

/-- The payload of a history_index_update event:
{ lastUserIndex?: number; lastModelIndex?: number }. -/
structure HistoryIndexPayload where
  lastUserIndex : Option Int := none
  lastModelIndex : Option Int := none
deriving DecidableEq

/-- The updater passed to updateMessage by
AcpAgentManager.applyHistoryIndexUpdate: the user-side scan (side right) runs
first on the copied array, then the model-side scan (side left) runs on the
result. -/
def applyHistoryIndexUpdate (payload : HistoryIndexPayload) (messages : List Msg) : List Msg :=
  let afterUser :=
    match payload.lastUserIndex with
    | some v => assignLastUnindexed .right v messages
    | none => messages
  match payload.lastModelIndex with
  | some v => assignLastUnindexed .left v afterUser
  | none => afterUser

/-- The history indices of one side's messages, in local sequence order
(the data the strict-increase invariant of spec section 3 speaks about). -/
def sideIndices (s : Side) (l : List Msg) : List Int :=
  l.filterMap fun m => if m.position = s then m.historyIndex else none

/-- The invariant of spec section 3: among messages of the same side, history
indices (when present) are strictly increasing in local sequence order. -/
def historyMonotone (l : List Msg) : Prop :=
  ∀ s : Side, (sideIndices s l).Pairwise (· < ·)

instance (l : List Msg) : Decidable (historyMonotone l) := by
  unfold historyMonotone
  infer_instance

/-! Bootstrap caching (AcpAgentManager.initAgent). -/

/-- The running agent handle returned by a successful bootstrap. -/
structure AgentHandle where
  conversationId : String
deriving DecidableEq

/-- Outcome of the subprocess start routine: the settled value of the
bootstrap promise. -/
inductive StartOutcome
  | ok (agent : AgentHandle)
  | error (msg : String)
deriving DecidableEq

/-- The bridge-instance state that initAgent reads and writes: the cached
bootstrap promise (none until the first call) plus an instrumentation counter
of how many times the underlying start routine ran. -/
structure BootstrapState where
  bootstrap : Option StartOutcome := none
  startCount : Nat := 0
deriving DecidableEq

/-- AcpAgentManager.initAgent: if this.bootstrap is set, return it; otherwise
run the start routine once, cache its outcome and return it.  The check and
the assignment are synchronous in the source (no await between them), so
concurrent callers serialize here. -/
def initAgent (startRoutine : StartOutcome) (st : BootstrapState) :
    StartOutcome × BootstrapState :=
  match st.bootstrap with
  | some cached => (cached, st)
  | none =>
    (startRoutine, { bootstrap := some startRoutine, startCount := st.startCount + 1 })

/-- A sequence of initAgent calls against one bridge instance; each call
carries the outcome its own start routine would produce if it were the one
to run. -/
def runInitCalls : List StartOutcome → BootstrapState → List StartOutcome × BootstrapState
  | [], st => ([], st)
  | o :: os, st =>
    let r := initAgent o st
    let rest := runInitCalls os r.2
    (r.1 :: rest.1, rest.2)

/-! Stream-event dispatch (the onStreamEvent callback installed by initAgent). -/

/-- A content event received from the agent subprocess (the fields of
IResponseMessage that onStreamEvent inspects; the history payload is only
meaningful when type = "history_index_update"). -/
structure StreamEvent where
  type : String
  conversationId : String := ""
  msgId : Option String := none
  histPayload : HistoryIndexPayload := {}
  data : String := ""
deriving DecidableEq

/-- The side effects onStreamEvent can perform, in execution order. -/
inductive BridgeEffect
  | clearStore
  | applyHistory (p : HistoryIndexPayload)
  | upsertStore (m : Msg)
  | emitStream (e : StreamEvent)
deriving DecidableEq

/-- AcpAgentManager's onStreamEvent callback, expressed as the list of
effects it performs for one content event.  previewHandled abstracts
handlePreviewOpenEvent (external, process/utils/previewUtils) and transform
abstracts the side-effect-free transformMessage mapping (external,
common/chatLib). -/
def onStreamEvent (previewHandled : StreamEvent → Bool) (transform : StreamEvent → Option Msg)
    (v : StreamEvent) : List BridgeEffect :=
  if previewHandled v then []
  else if v.type == "clear_history" then [.clearStore, .emitStream v]
  else if v.type == "history_index_update" then [.applyHistory v.histPayload, .emitStream v]
  else if v.type == "thought" then [.emitStream v]
  else
    match transform v with
    | some m => [.upsertStore m, .emitStream v]
    | none => [.emitStream v]

/-- Modelled from the spec: addOrUpdateMessage lives in process/message.ts,
which is not among the reviewed sources; spec section 4.2 describes it as
"upsert it into the Transcript Store keyed by message identity (insert if
new, replace if an entry with the same identity exists)". -/
def addOrUpdateMessage (l : List Msg) (m : Msg) : List Msg :=
  if l.any fun x => x.id == m.id then l.map fun x => if x.id == m.id then m else x
  else l ++ [m]

/-- Interpretation of one bridge effect on the conversation's Transcript
Store (emissions leave the store unchanged; clearMessages empties it). -/
def applyBridgeEffect (store : List Msg) : BridgeEffect → List Msg
  | .clearStore => []
  | .applyHistory p => applyHistoryIndexUpdate p store
  | .upsertStore m => addOrUpdateMessage store m
  | .emitStream _ => store

/-- Run a list of effects against the Transcript Store. -/
def applyBridgeEffects (effects : List BridgeEffect) (store : List Msg) : List Msg :=
  effects.foldl applyBridgeEffect store

/-- The stream events republished to observers by a list of effects, in
order. -/
def emittedEvents (effects : List BridgeEffect) : List StreamEvent :=
  effects.filterMap fun e =>
    match e with
    | .emitStream v => some v
    | _ => none

/-! sendMessage (AcpAgentManager.sendMessage). -/

/-- The argument record of sendMessage. -/
structure SendMessageParams where
  content : String
  files : List String := []
  msgId : Option String := none
deriving DecidableEq

/-- String trimming on the character sequence: drop whitespace from both
ends (data.content.trim()). -/
def trimChars (l : List Char) : List Char :=
  ((l.dropWhile Char.isWhitespace).reverse.dropWhile Char.isWhitespace).reverse

/-- const trimmed = data.content.trim();
const isSlashCommand = trimmed.startsWith('/') && trimmed.length > 1. -/
def isSlashCommand (content : String) : Bool :=
  let trimmed := trimChars content.data
  List.isPrefixOf ['/'] trimmed && trimmed.length > 1

/-- The guard of the user-message persistence block:
data.msg_id && data.content && !isSlashCommand (JS truthiness). -/
def shouldPersistUser (p : SendMessageParams) : Bool :=
  optStringTruthy p.msgId && !(p.content == "") && !(isSlashCommand p.content)

/-- The user TMessage literal built inside sendMessage. -/
def mkUserMessage (conversationId : String) (now : Nat) (p : SendMessageParams) : Msg :=
  { id := p.msgId.getD ""
    msgId := p.msgId
    type := .text
    position := .right
    conversationId := conversationId
    content := p.content
    historyIndex := none
    createdAt := now }

/-- The side effects sendMessage can perform, in execution order. -/
inductive SendEffect
  | persistUser (m : Msg)
  | emitUserContent (msgId : String) (content : String)
  | dispatchRemote (p : SendMessageParams)
  | persistError (detail : String)
  | emitError (detail : String)
deriving DecidableEq

/-- Settlement of the remote dispatch (this.agent.sendMessage). -/
inductive DispatchOutcome
  | ok
  | failed (detail : String)
deriving DecidableEq

/-- AcpAgentManager.sendMessage, expressed as the list of effects it performs
plus its settlement, parameterized by the bootstrap outcome and the remote
dispatch outcome.  A bootstrap failure or a dispatch failure lands in the
catch block, which persists and emits a synthesized error message before the
rejection settles. -/
def sendMessage (initResult : StartOutcome) (dispatch : DispatchOutcome)
    (now : Nat) (conversationId : String) (p : SendMessageParams) :
    List SendEffect × DispatchOutcome :=
  match initResult with
  | .error e => ([.persistError e, .emitError e], .failed e)
  | .ok _ =>
    let pre : List SendEffect :=
      if shouldPersistUser p then
        [.persistUser (mkUserMessage conversationId now p),
         .emitUserContent (p.msgId.getD "") p.content]
      else []
    match dispatch with
    | .ok => (pre ++ [.dispatchRemote p], .ok)
    | .failed e => (pre ++ [.dispatchRemote p, .persistError e, .emitError e], .failed e)

/-! Mutation API: editMessage and regenerateMessage. -/

/-- The response shape of session/editMessage and session/regenerate
(type AcpSessionUpdateResult in the source). -/
structure AcpSessionUpdateResult where
  success : Bool
  newSessionId : Option String := none
deriving DecidableEq

/-- Settlement of an agent RPC (this.agent.callMethod). -/
inductive RpcOutcome (α : Type)
  | ok (value : α)
  | error (msg : String)
deriving DecidableEq

/-- The bridge-side state the mutation operations read and write: the
Connection Adapter's active session id (getSessionId / setSessionId, modelled
from the spec as a plain field since AcpAgent is an external collaborator)
and the conversation's Transcript Store. -/
structure SessionState where
  sessionId : Option String := none
  store : List Msg := []
deriving DecidableEq

/-- AcpAgentManager.editMessage: await initAgent, require an active session
id (JS-truthy), issue the RPC, and adopt result.newSessionId as the active
session when the response carries a truthy one.  The RPC settlement is a
parameter; the response may be absent (result?.newSessionId).  The Transcript
Store is never touched. -/
def editMessage (initResult : StartOutcome)
    (rpc : RpcOutcome (Option AcpSessionUpdateResult)) (st : SessionState) :
    RpcOutcome (Option AcpSessionUpdateResult) × SessionState :=
  match initResult with
  | .error e => (.error e, st)
  | .ok _ =>
    if optStringTruthy st.sessionId then
      match rpc with
      | .error e => (.error e, st)
      | .ok result =>
        match result with
        | some r =>
          if optStringTruthy r.newSessionId then
            (.ok (some r), { st with sessionId := r.newSessionId })
          else (.ok (some r), st)
        | none => (.ok none, st)
    else (.error "No active ACP session", st)

/-- AcpAgentManager.regenerateMessage: identical session-adoption logic to
editMessage (the two differ only in the RPC method and request fields). -/
def regenerateMessage (initResult : StartOutcome)
    (rpc : RpcOutcome (Option AcpSessionUpdateResult)) (st : SessionState) :
    RpcOutcome (Option AcpSessionUpdateResult) × SessionState :=
  match initResult with
  | .error e => (.error e, st)
  | .ok _ =>
    if optStringTruthy st.sessionId then
      match rpc with
      | .error e => (.error e, st)
      | .ok result =>
        match result with
        | some r =>
          if optStringTruthy r.newSessionId then
            (.ok (some r), { st with sessionId := r.newSessionId })
          else (.ok (some r), st)
        | none => (.ok none, st)
    else (.error "No active ACP session", st)

/-! Slash-command completion (manager and bridge provider). -/

/-- One suggestion entry of the commands/complete response. -/
structure Suggestion where
  name : String
  description : String := ""
  category : String := ""
  text : Option String := none
  isArgument : Option Bool := none
deriving DecidableEq

/-- The sessionId field that AcpAgentManager.completeCommand places into the
commands/complete request: present only when the adapter's session id is
JS-truthy (the source spreads ...(sessionId ? { sessionId } : {})). -/
def completeRequestSessionId (agentSessionId : Option String) : Option String :=
  if optStringTruthy agentSessionId then agentSessionId else none

/-- AcpAgentManager.completeCommand's handling of the RPC settlement:
return result?.suggestions ?? [] on success, propagate a raised error. -/
def completeCommandMgr (rpcResult : RpcOutcome (Option (List Suggestion))) :
    RpcOutcome (List Suggestion) :=
  match rpcResult with
  | .error e => .error e
  | .ok r => .ok (r.getD [])

/-- The static command list of the completeCommand provider in
acpConversationBridge.ts. -/
def staticCommands : List Suggestion :=
  [{ name := "/help", description := "Show available commands", category := "built-in" },
   { name := "/copy", description := "Copy last response to clipboard", category := "built-in" },
   { name := "/chat save", description := "Save the current conversation", category := "built-in" },
   { name := "/chat resume", description := "Resume a saved conversation", category := "built-in" },
   { name := "/chat list", description := "List saved checkpoints", category := "built-in" },
   { name := "/chat delete", description := "Delete a saved checkpoint", category := "built-in" }]

/-- c.name.toLowerCase().startsWith(partial.toLowerCase()), on the character
sequences of the two strings. -/
def lowerCaseStartsWith (name query : String) : Bool :=
  (query.data.map Char.toLower).isPrefixOf (name.data.map Char.toLower)

/-- The provider's static filter: staticCommands.filter(c =>
c.name.toLowerCase().startsWith(lowerPartial)). -/
def filterStatic (query : String) : List Suggestion :=
  staticCommands.filter fun c => lowerCaseStartsWith c.name query

/-- The uniform result shape of the bridge providers. -/
structure ProviderResult where
  success : Bool
  suggestions : List Suggestion := []
  msg : Option String := none
deriving DecidableEq

/-- The completeCommand provider of acpConversationBridge.ts: with no
(JS-truthy) sessionId it answers from the static list; otherwise it looks up
the conversation's task (taskFound / taskIsAcp parameters abstract
WorkerManage.getTaskById) and forwards to the manager, whose settlement is
the mgr parameter. -/
def completeCommandProvider (sessionId : Option String) (query : String)
    (taskFound taskIsAcp : Bool) (mgr : RpcOutcome (List Suggestion)) : ProviderResult :=
  if !(optStringTruthy sessionId) then
    { success := true, suggestions := filterStatic query }
  else if !taskFound || !taskIsAcp then
    { success := false, msg := some "ACP session not found" }
  else
    match mgr with
    | .ok s => { success := true, suggestions := s }
    | .error e => { success := false, msg := some e }

/-! resolveHistoryIndex (MessageList.tsx). -/

/-- const HISTORY_MESSAGE_OFFSET = 1 (gemini-cli initial environment
context). -/
def HISTORY_MESSAGE_OFFSET : Int := 1

/-- message.type === 'text' && (message.position === 'left' ||
message.position === 'right'). -/
def isEditableTextMessage (m : Msg) : Bool :=
  m.type == .text && (m.position == .left || m.position == .right)

/-- The counting loop of resolveHistoryIndex: let ordinal = -1; for each
entry, skip non-editable-text entries, increment ordinal, and return
ordinal + HISTORY_MESSAGE_OFFSET when the entry's id matches the target. -/
def resolveHistoryIndexGo (targetId : String) : List Msg → Int → Option Int
  | [], _ => none
  | e :: rest, ordinal =>
    if isEditableTextMessage e then
      if e.id == targetId then some (ordinal + 1 + HISTORY_MESSAGE_OFFSET)
      else resolveHistoryIndexGo targetId rest (ordinal + 1)
    else resolveHistoryIndexGo targetId rest ordinal

/-- MessageList's resolveHistoryIndex: the stored history index when the
message has one, otherwise the counting loop over the transcript list, null
when the loop finds no match. -/
def resolveHistoryIndex (list : List Msg) (message : Msg) : Option Int :=
  match message.historyIndex with
  | some i => some i
  | none => resolveHistoryIndexGo message.id list (-1)

/-! Concrete fixture values for witnesses and counterexamples. -/

/-- A user-side plain-text message without a history index. -/
def msgUserA : Msg := { id := "a", type := .text, position := .right }

/-- A second user-side plain-text message without a history index. -/
def msgUserB : Msg := { id := "b", type := .text, position := .right }

/-- An agent-side plain-text message without a history index. -/
def msgLeftC : Msg := { id := "c", type := .text, position := .left }

/-- A user-side plain-text message already carrying history index 1. -/
def msgIndexed1 : Msg := { id := "i1", type := .text, position := .right, historyIndex := some 1 }

/-- A plain-text message with a stored history index 9. -/
def msgStored9 : Msg := { id := "w", type := .text, position := .right, historyIndex := some 9 }

/-- A tool-call group message with a known history index 5. -/
def msgToolG : Msg := { id := "g", type := .tool_group, position := .left, historyIndex := some 5 }

/-- A system notice message (not index-eligible). -/
def msgTips : Msg := { id := "t", type := .tips, position := .center }

/-- A clear_history content event. -/
def evClear : StreamEvent := { type := "clear_history" }

/-- A generic content event of no special tag. -/
def evContent : StreamEvent := { type := "content", data := "hi" }

/-! Helper lemmas about the backward reconciliation scan. -/

theorem isHistoryTarget_iff {s : Side} {m : Msg} :
    isHistoryTarget s m = true ↔ m.type = .text ∧ m.position = s ∧ m.historyIndex = none := by
  simp [isHistoryTarget, and_assoc]

@[simp]
theorem setHistoryIndex_position (v : Int) (m : Msg) :
    (setHistoryIndex v m).position = m.position := rfl

@[simp]
theorem setHistoryIndex_type (v : Int) (m : Msg) :
    (setHistoryIndex v m).type = m.type := rfl

@[simp]
theorem setHistoryIndex_id (v : Int) (m : Msg) :
    (setHistoryIndex v m).id = m.id := rfl

@[simp]
theorem setHistoryIndex_historyIndex (v : Int) (m : Msg) :
    (setHistoryIndex v m).historyIndex = some v := rfl

theorem isHistoryTarget_setHistoryIndex (s : Side) (v : Int) (m : Msg) :
    isHistoryTarget s (setHistoryIndex v m) = false := by
  simp [isHistoryTarget]

theorem isHistoryTarget_false_of_ne {s s' : Side} (hne : s' ≠ s) {m : Msg}
    (h : isHistoryTarget s m = true) : isHistoryTarget s' m = false := by
  cases hc : isHistoryTarget s' m
  · rfl
  · exact absurd ((isHistoryTarget_iff.mp hc).2.1.symm.trans (isHistoryTarget_iff.mp h).2.1)
      hne

theorem assignRev_of_no_target {s : Side} {v : Int} {l : List Msg}
    (h : ∀ m ∈ l, isHistoryTarget s m = false) : assignRev s v l = l := by
  induction l with
  | nil => rfl
  | cons m rest ih =>
    simp [assignRev, h m (List.mem_cons_self m rest),
      ih fun x hx => h x (List.mem_cons_of_mem m hx)]

theorem assignLastUnindexed_of_no_target {s : Side} {v : Int} {l : List Msg}
    (h : ∀ m ∈ l, isHistoryTarget s m = false) : assignLastUnindexed s v l = l := by
  unfold assignLastUnindexed
  rw [assignRev_of_no_target fun m hm => h m (List.mem_reverse.mp hm), List.reverse_reverse]

theorem assignRev_append {s : Side} {v : Int} {a : List Msg} {t : Msg} {b : List Msg}
    (ha : ∀ m ∈ a, isHistoryTarget s m = false) (ht : isHistoryTarget s t = true) :
    assignRev s v (a ++ t :: b) = a ++ setHistoryIndex v t :: b := by
  induction a with
  | nil => simp [assignRev, ht]
  | cons m rest ih =>
    simp [assignRev, ha m (List.mem_cons_self m rest),
      ih fun x hx => ha x (List.mem_cons_of_mem m hx)]

theorem assignLastUnindexed_append {s : Side} {v : Int} {a : List Msg} {t : Msg} {b : List Msg}
    (ht : isHistoryTarget s t = true) (hb : ∀ m ∈ b, isHistoryTarget s m = false) :
    assignLastUnindexed s v (a ++ t :: b) = a ++ setHistoryIndex v t :: b := by
  unfold assignLastUnindexed
  have h1 : (a ++ t :: b).reverse = b.reverse ++ t :: a.reverse := by simp
  rw [h1, assignRev_append (fun m hm => hb m (List.mem_reverse.mp hm)) ht]
  simp

theorem exists_last_target {s : Side} {l : List Msg}
    (h : ∃ m ∈ l, isHistoryTarget s m = true) :
    ∃ a t b, l = a ++ t :: b ∧ isHistoryTarget s t = true ∧
      ∀ m ∈ b, isHistoryTarget s m = false := by
  induction l with
  | nil => simp at h
  | cons m rest ih =>
    by_cases hr : ∃ x ∈ rest, isHistoryTarget s x = true
    · obtain ⟨a, t, b, heq, ht, hb⟩ := ih hr
      exact ⟨m :: a, t, b, by rw [heq]; rfl, ht, hb⟩
    · push_neg at hr
      have hm : isHistoryTarget s m = true := by
        obtain ⟨x, hx, hxt⟩ := h
        rcases List.mem_cons.mp hx with rfl | hx'
        · exact hxt
        · exact absurd hxt (hr x hx')
      exact ⟨[], m, rest, rfl, hm, fun x hx => by simpa using hr x hx⟩

theorem sideIndices_append (s : Side) (a b : List Msg) :
    sideIndices s (a ++ b) = sideIndices s a ++ sideIndices s b := by
  simp [sideIndices]

theorem sideIndices_cons_none {s : Side} {m : Msg} (l : List Msg)
    (h : (if m.position = s then m.historyIndex else none) = none) :
    sideIndices s (m :: l) = sideIndices s l := by
  simp [sideIndices, List.filterMap_cons, h]

theorem sideIndices_cons_some {s : Side} {m : Msg} (v : Int) (l : List Msg)
    (h : (if m.position = s then m.historyIndex else none) = some v) :
    sideIndices s (m :: l) = v :: sideIndices s l := by
  simp [sideIndices, List.filterMap_cons, h]

/-- The history index stored on a message is below the bound (trivially true
when no index is stored). -/
def idxBelow (v : Int) : Option Int → Prop
  | some k => k < v
  | none => True

instance (v : Int) (o : Option Int) : Decidable (idxBelow v o) := by
  cases o <;> simp [idxBelow] <;> infer_instance

/-- Precondition on one side's update: the incoming index exceeds every index
already present on that side, and no message of that side that already
carries an index occurs after an unindexed plain-text message of that side
(so the backward scan's target is the side's last index-bearing position). -/
def okUpdateSide (s : Side) (v : Int) (l : List Msg) : Prop :=
  (∀ m ∈ l, m.position = s → idxBelow v m.historyIndex) ∧
  l.Pairwise fun x y => isHistoryTarget s x = true → y.position = s → y.historyIndex = none

instance (s : Side) (v : Int) (l : List Msg) : Decidable (okUpdateSide s v l) := by
  unfold okUpdateSide
  infer_instance

theorem assignLast_preserves_monotone {s : Side} {v : Int} {l : List Msg}
    (hok : okUpdateSide s v l) (h : historyMonotone l) :
    historyMonotone (assignLastUnindexed s v l) := by
  obtain ⟨hbelow, horder⟩ := hok
  by_cases hex : ∃ m ∈ l, isHistoryTarget s m = true
  · obtain ⟨a, t, b, rfl, ht, hb⟩ := exists_last_target hex
    obtain ⟨httype, htpos, htidx⟩ := isHistoryTarget_iff.mp ht
    rw [assignLastUnindexed_append ht hb]
    have hbnone : ∀ m ∈ b, m.position = s → m.historyIndex = none := by
      have h2 := (List.pairwise_append.mp horder).2.1
      have h3 := (List.pairwise_cons.mp h2).1
      exact fun m hm hpos => h3 m hm ht hpos
    intro s'
    by_cases hs : s' = s
    · subst hs
      have hbnil : sideIndices s' b = [] := by
        rw [sideIndices, List.filterMap_eq_nil_iff]
        intro m hm
        by_cases hp : m.position = s'
        · simp [hp, hbnone m hm hp]
        · simp [hp]
      have hbefore : sideIndices s' (a ++ t :: b) = sideIndices s' a := by
        rw [sideIndices_append, sideIndices_cons_none b (by simp [htpos, htidx]), hbnil,
          List.append_nil]
      have hpa : (sideIndices s' a).Pairwise (· < ·) := by
        have := h s'
        rwa [hbefore] at this
      have hafter : sideIndices s' (a ++ setHistoryIndex v t :: b) =
          sideIndices s' a ++ [v] := by
        rw [sideIndices_append, sideIndices_cons_some v b (by simp [htpos]), hbnil]
      rw [hafter, List.pairwise_append]
      refine ⟨hpa, List.pairwise_singleton _ _, ?_⟩
      intro x hx y hy
      rw [List.mem_singleton] at hy
      subst hy
      obtain ⟨m, hm, hmx⟩ := List.mem_filterMap.mp hx
      by_cases hp : m.position = s'
      · rw [if_pos hp] at hmx
        have := hbelow m (List.mem_append_left _ hm) hp
        rwa [hmx] at this
      · rw [if_neg hp] at hmx
        cases hmx
    · have h1 : sideIndices s' (a ++ setHistoryIndex v t :: b) =
          sideIndices s' (a ++ t :: b) := by
        rw [sideIndices_append, sideIndices_append,
          sideIndices_cons_none b (by simp [htpos]; exact fun hh => hs hh.symm),
          sideIndices_cons_none b (by simp [htidx])]
      rw [h1]
      exact h s'
  · push_neg at hex
    rw [assignLastUnindexed_of_no_target fun m hm => by simpa using hex m hm]
    exact h

theorem okUpdateSide_assignLast {s s' : Side} {v v' : Int} {l : List Msg} (hne : s' ≠ s)
    (hok : okUpdateSide s' v' l) : okUpdateSide s' v' (assignLastUnindexed s v l) := by
  by_cases hex : ∃ m ∈ l, isHistoryTarget s m = true
  · obtain ⟨a, t, b, rfl, ht, hb⟩ := exists_last_target hex
    obtain ⟨httype, htpos, htidx⟩ := isHistoryTarget_iff.mp ht
    obtain ⟨h1, h2⟩ := hok
    rw [assignLastUnindexed_append ht hb]
    have htpos' : (setHistoryIndex v t).position ≠ s' := by
      simp [htpos]
      exact fun hh => hne hh.symm
    constructor
    · intro m hm hpos
      rcases List.mem_append.mp hm with hma | hmb
      · exact h1 m (List.mem_append_left _ hma) hpos
      · rcases List.mem_cons.mp hmb with rfl | hmb'
        · exact absurd hpos htpos'
        · exact h1 m (List.mem_append_right _ (List.mem_cons_of_mem _ hmb')) hpos
    · rw [List.pairwise_append] at h2 ⊢
      obtain ⟨h2a, h2tb, h2x⟩ := h2
      rw [List.pairwise_cons] at h2tb ⊢
      obtain ⟨h2t, h2b⟩ := h2tb
      refine ⟨h2a, ⟨?_, h2b⟩, ?_⟩
      · intro m hm htarget hpos
        exfalso
        have := (isHistoryTarget_iff.mp htarget).2.1
        rw [setHistoryIndex_position, htpos] at this
        exact hne this.symm
      · intro x hx y hy
        rcases List.mem_cons.mp hy with rfl | hy'
        · exact fun _ hpos => absurd hpos htpos'
        · exact h2x x hx y (List.mem_cons_of_mem _ hy')
  · push_neg at hex
    rw [assignLastUnindexed_of_no_target fun m hm => by simpa using hex m hm]
    exact hok

theorem assignRev_countP_other {s s' : Side} (hne : s' ≠ s) (v : Int) (l : List Msg) :
    (assignRev s v l).countP (isHistoryTarget s') = l.countP (isHistoryTarget s') := by
  induction l with
  | nil => rfl
  | cons m rest ih =>
    by_cases hm : isHistoryTarget s m = true
    · have h1 : isHistoryTarget s' m = false := isHistoryTarget_false_of_ne hne hm
      simp [assignRev, hm, List.countP_cons, isHistoryTarget_setHistoryIndex, h1]
    · have hmf : isHistoryTarget s m = false := by simpa using hm
      simp [assignRev, hmf, List.countP_cons, ih]

theorem assignLast_countP_other {s s' : Side} (hne : s' ≠ s) (v : Int) (l : List Msg) :
    (assignLastUnindexed s v l).countP (isHistoryTarget s') =
      l.countP (isHistoryTarget s') := by
  unfold assignLastUnindexed
  rw [(List.reverse_perm _).countP_eq, assignRev_countP_other hne,
    (List.reverse_perm _).countP_eq]

theorem assignLast_of_countP_zero {s : Side} {v : Int} {l : List Msg}
    (h : l.countP (isHistoryTarget s) = 0) : assignLastUnindexed s v l = l :=
  assignLastUnindexed_of_no_target fun m hm => by
    simpa using List.countP_eq_zero.mp h m hm

theorem assignLast_countP_self {s : Side} {v : Int} {l : List Msg}
    (h : l.countP (isHistoryTarget s) ≤ 1) :
    (assignLastUnindexed s v l).countP (isHistoryTarget s) = 0 := by
  by_cases hex : ∃ m ∈ l, isHistoryTarget s m = true
  · obtain ⟨a, t, b, rfl, ht, hb⟩ := exists_last_target hex
    rw [assignLastUnindexed_append ht hb]
    have hbz : b.countP (isHistoryTarget s) = 0 :=
      List.countP_eq_zero.mpr fun m hm => by simp [hb m hm]
    rw [List.countP_append, List.countP_cons, hbz, if_pos ht] at h
    have ha : a.countP (isHistoryTarget s) = 0 := by omega
    rw [List.countP_append, List.countP_cons, hbz, ha,
      if_neg (by simp [isHistoryTarget_setHistoryIndex])]
  · push_neg at hex
    have h0 : ∀ m ∈ l, isHistoryTarget s m = false := fun m hm => by simpa using hex m hm
    rw [assignLastUnindexed_of_no_target h0]
    exact List.countP_eq_zero.mpr fun m hm => by simp [h0 m hm]

theorem assignRev_comm {s s' : Side} (hne : s ≠ s') (v v' : Int) (l : List Msg) :
    assignRev s v (assignRev s' v' l) = assignRev s' v' (assignRev s v l) := by
  induction l with
  | nil => rfl
  | cons m rest ih =>
    by_cases h1 : isHistoryTarget s m = true
    · have h2 : isHistoryTarget s' m = false := isHistoryTarget_false_of_ne (Ne.symm hne) h1
      simp [assignRev, h1, h2, isHistoryTarget_setHistoryIndex]
    · by_cases h2 : isHistoryTarget s' m = true
      · have h1f : isHistoryTarget s m = false := isHistoryTarget_false_of_ne hne h2
        simp [assignRev, h1f, h2, isHistoryTarget_setHistoryIndex]
      · simp only [assignRev, h1, h2, Bool.false_eq_true, if_false]
        simp [assignRev, h1, h2, ih]

theorem assignLast_comm {s s' : Side} (hne : s ≠ s') (v v' : Int) (l : List Msg) :
    assignLastUnindexed s v (assignLastUnindexed s' v' l) =
      assignLastUnindexed s' v' (assignLastUnindexed s v l) := by
  unfold assignLastUnindexed
  rw [List.reverse_reverse, List.reverse_reverse, assignRev_comm hne]

theorem resolveHistoryIndexGo_of_not_found {tid : String} :
    ∀ (l : List Msg) (o : Int), (∀ x ∈ l, isEditableTextMessage x = true → x.id ≠ tid) →
      resolveHistoryIndexGo tid l o = none := by
  intro l
  induction l with
  | nil => intro o _; rfl
  | cons x rest ih =>
    intro o h
    by_cases hx : isEditableTextMessage x = true
    · have hid : (x.id == tid) = false :=
        beq_eq_false_iff_ne.mpr (h x (List.mem_cons_self x rest) hx)
      simp [resolveHistoryIndexGo, hx, hid,
        ih (o + 1) fun y hy hyt => h y (List.mem_cons_of_mem x hy) hyt]
    · have hxf : isEditableTextMessage x = false := by simpa using hx
      simp [resolveHistoryIndexGo, hxf,
        ih o fun y hy hyt => h y (List.mem_cons_of_mem x hy) hyt]

theorem resolveHistoryIndexGo_found {tid : String} {m : Msg}
    (hm : isEditableTextMessage m = true) (hid : m.id = tid) :
    ∀ (l1 l2 : List Msg) (o : Int),
      (∀ x ∈ l1, isEditableTextMessage x = true → x.id ≠ tid) →
      resolveHistoryIndexGo tid (l1 ++ m :: l2) o =
        some (o + (l1.countP isEditableTextMessage : Int) + 1 + HISTORY_MESSAGE_OFFSET) := by
  intro l1
  induction l1 with
  | nil =>
    intro l2 o _
    have hb : (m.id == tid) = true := beq_iff_eq.mpr hid
    simp [resolveHistoryIndexGo, hm, hb]
  | cons x rest ih =>
    intro l2 o h
    by_cases hx : isEditableTextMessage x = true
    · have hxid : (x.id == tid) = false :=
        beq_eq_false_iff_ne.mpr (h x (List.mem_cons_self x rest) hx)
      rw [List.cons_append]
      simp only [resolveHistoryIndexGo, hx, hxid, Bool.false_eq_true, if_false, if_true]
      rw [ih l2 (o + 1) fun y hy hyt => h y (List.mem_cons_of_mem x hy) hyt,
        List.countP_cons, if_pos hx]
      congr 1
      push_cast
      ring
    · have hxf : isEditableTextMessage x = false := by simpa using hx
      rw [List.cons_append]
      simp only [resolveHistoryIndexGo, hxf, Bool.false_eq_true, if_false]
      rw [ih l2 o fun y hy hyt => h y (List.mem_cons_of_mem x hy) hyt,
        List.countP_cons, if_neg (by simp [hxf])]
      simp

/-! Claim theorems. -/

theorem runInitCalls_cached (c : StartOutcome) :
    ∀ (os : List StartOutcome) (st : BootstrapState), st.bootstrap = some c →
      runInitCalls os st = (List.replicate os.length c, st) := by
  intro os
  induction os with
  | nil => intro st _; rfl
  | cons o rest ih =>
    intro st h
    simp [runInitCalls, initAgent, h, ih st h, List.replicate_succ]

/-- Claim C1: on one bridge instance, any sequence of initAgent calls runs
the underlying start routine exactly once: the first call creates and caches
the start outcome (startCount ends at 1), and every call — the first and all
later ones, whatever outcome their own start routine would have produced —
returns that same cached outcome, so a successful bootstrap always yields
the same handle and a failed bootstrap yields the same error with no retry. -/
theorem initAgent_single_flight (o : StartOutcome) (os : List StartOutcome) :
    runInitCalls (o :: os) { bootstrap := none, startCount := 0 } =
      (List.replicate (os.length + 1) o,
       { bootstrap := some o, startCount := 1 }) := by
  simp [runInitCalls, initAgent, List.replicate_succ,
    runInitCalls_cached o os { bootstrap := some o, startCount := 1 } rfl]

/-- Claim C2 counterexample: from a transcript of two unindexed user-side
plain-text messages (which satisfies the strict-increase invariant), the
sequence of history_index_update events lastUserIndex=5 followed by
lastUserIndex=7 produces indices 7 then 5 in local order, violating the
invariant the claim asserts for every reachable state. -/
theorem applyHistoryIndexUpdate_monotone_cex :
    historyMonotone [msgUserA, msgUserB] ∧
    ¬ historyMonotone
        (applyHistoryIndexUpdate { lastUserIndex := some 7 }
          (applyHistoryIndexUpdate { lastUserIndex := some 5 } [msgUserA, msgUserB])) := by
  decide

/-- Claim C2 (amended): a history_index_update preserves the strict-increase
invariant provided each side it carries satisfies okUpdateSide: the incoming
index exceeds every index already present on that side, and no already
indexed message of that side sits after an unindexed plain-text message of
that side (in particular at most the side's final run is unindexed). -/
theorem applyHistoryIndexUpdate_preserves_monotone (payload : HistoryIndexPayload)
    (l : List Msg) (h : historyMonotone l)
    (hu : ∀ v, payload.lastUserIndex = some v → okUpdateSide .right v l)
    (hm : ∀ v, payload.lastModelIndex = some v → okUpdateSide .left v l) :
    historyMonotone (applyHistoryIndexUpdate payload l) := by
  rcases payload with ⟨u, m⟩
  cases u with
  | none =>
    cases m with
    | none => exact h
    | some vm =>
      exact assignLast_preserves_monotone (hm vm rfl) h
  | some vu =>
    have h1 : historyMonotone (assignLastUnindexed .right vu l) :=
      assignLast_preserves_monotone (hu vu rfl) h
    cases m with
    | none => exact h1
    | some vm =>
      exact assignLast_preserves_monotone
        (okUpdateSide_assignLast (by decide) (hm vm rfl)) h1

/-- Claim C2 witness: a concrete transcript and update satisfying the
amended hypotheses, with the invariant holding afterwards. -/
theorem applyHistoryIndexUpdate_preserves_monotone_witness :
    historyMonotone [msgIndexed1, msgUserB] ∧
    okUpdateSide .right 3 [msgIndexed1, msgUserB] ∧
    historyMonotone
      (applyHistoryIndexUpdate { lastUserIndex := some 3 } [msgIndexed1, msgUserB]) :=
  ⟨by decide, by decide,
    applyHistoryIndexUpdate_preserves_monotone _ _ (by decide)
      (fun v hv => by cases hv; decide) (fun v hv => nomatch hv)⟩

/-- Claim C5 counterexample: with two unindexed user-side plain-text
messages pending, delivering lastUserIndex=5 twice indexes both of them
(the second delivery skips the already indexed one and captures the
earlier message), so the state differs from a single delivery. -/
theorem applyHistoryIndexUpdate_idem_cex :
    applyHistoryIndexUpdate { lastUserIndex := some 5 }
        (applyHistoryIndexUpdate { lastUserIndex := some 5 } [msgUserA, msgUserB]) ≠
      applyHistoryIndexUpdate { lastUserIndex := some 5 } [msgUserA, msgUserB] := by
  decide

/-- Claim C5 (amended): delivering the same history_index_update twice in
succession equals delivering it once, provided that for each side the update
carries the transcript holds at most one unindexed plain-text message of
that side (then the first delivery consumes the only scan target and the
second delivery is a no-op for that side). -/
theorem applyHistoryIndexUpdate_idem (payload : HistoryIndexPayload) (l : List Msg)
    (hu : payload.lastUserIndex.isSome = true →
      l.countP (isHistoryTarget .right) ≤ 1)
    (hm : payload.lastModelIndex.isSome = true →
      l.countP (isHistoryTarget .left) ≤ 1) :
    applyHistoryIndexUpdate payload (applyHistoryIndexUpdate payload l) =
      applyHistoryIndexUpdate payload l := by
  rcases payload with ⟨u, m⟩
  cases u with
  | none =>
    cases m with
    | none => rfl
    | some vm =>
      show assignLastUnindexed .left vm (assignLastUnindexed .left vm l) =
        assignLastUnindexed .left vm l
      exact assignLast_of_countP_zero (assignLast_countP_self (hm rfl))
  | some vu =>
    cases m with
    | none =>
      show assignLastUnindexed .right vu (assignLastUnindexed .right vu l) =
        assignLastUnindexed .right vu l
      exact assignLast_of_countP_zero (assignLast_countP_self (hu rfl))
    | some vm =>
      show assignLastUnindexed .left vm (assignLastUnindexed .right vu
          (assignLastUnindexed .left vm (assignLastUnindexed .right vu l))) =
        assignLastUnindexed .left vm (assignLastUnindexed .right vu l)
      have c1 : (assignLastUnindexed .right vu l).countP (isHistoryTarget .right) = 0 :=
        assignLast_countP_self (hu rfl)
      have c2 : (assignLastUnindexed .left vm
          (assignLastUnindexed .right vu l)).countP (isHistoryTarget .right) = 0 := by
        rw [assignLast_countP_other (by decide), c1]
      rw [assignLast_of_countP_zero c2]
      have c3 : (assignLastUnindexed .right vu l).countP (isHistoryTarget .left) ≤ 1 := by
        rw [assignLast_countP_other (by decide)]
        exact hm rfl
      have c4 : (assignLastUnindexed .left vm
          (assignLastUnindexed .right vu l)).countP (isHistoryTarget .left) = 0 :=
        assignLast_countP_self c3
      rw [assignLast_of_countP_zero c4]

/-- Claim C5 witness: with one unindexed message per side, a doubled update
carrying both indices equals the single update. -/
theorem applyHistoryIndexUpdate_idem_witness :
    applyHistoryIndexUpdate { lastUserIndex := some 5, lastModelIndex := some 6 }
        (applyHistoryIndexUpdate { lastUserIndex := some 5, lastModelIndex := some 6 }
          [msgLeftC, msgUserB]) =
      applyHistoryIndexUpdate { lastUserIndex := some 5, lastModelIndex := some 6 }
        [msgLeftC, msgUserB] :=
  applyHistoryIndexUpdate_idem _ _ (fun _ => by decide) (fun _ => by decide)

/-- Claim C4: the reconciliation of a history_index_update (i) leaves the
transcript unchanged for a side with no unindexed plain-text message of
that side (a no-op, not an error), (ii) assigns the carried index to the
most recent unindexed plain-text message of the matching side and stops
after that first match, leaving all other entries untouched, (iii) factors
into the user-side scan followed by the model-side scan, both of which may
fire from one update, and (iv) the two scans are independent: they commute. -/
theorem applyHistoryIndexUpdate_scan_spec :
    (∀ (s : Side) (v : Int) (l : List Msg),
        (∀ m ∈ l, isHistoryTarget s m = false) → assignLastUnindexed s v l = l) ∧
    (∀ (s : Side) (v : Int) (a : List Msg) (t : Msg) (b : List Msg),
        isHistoryTarget s t = true → (∀ m ∈ b, isHistoryTarget s m = false) →
        assignLastUnindexed s v (a ++ t :: b) = a ++ setHistoryIndex v t :: b) ∧
    (∀ (payload : HistoryIndexPayload) (l : List Msg),
        applyHistoryIndexUpdate payload l =
          applyHistoryIndexUpdate
            { lastUserIndex := none, lastModelIndex := payload.lastModelIndex }
            (applyHistoryIndexUpdate
              { lastUserIndex := payload.lastUserIndex, lastModelIndex := none } l)) ∧
    (∀ (payload : HistoryIndexPayload) (l : List Msg),
        applyHistoryIndexUpdate
            { lastUserIndex := none, lastModelIndex := payload.lastModelIndex }
            (applyHistoryIndexUpdate
              { lastUserIndex := payload.lastUserIndex, lastModelIndex := none } l) =
          applyHistoryIndexUpdate
            { lastUserIndex := payload.lastUserIndex, lastModelIndex := none }
            (applyHistoryIndexUpdate
              { lastUserIndex := none, lastModelIndex := payload.lastModelIndex } l)) := by
  refine ⟨fun s v l h => assignLastUnindexed_of_no_target h,
    fun s v a t b ht hb => assignLastUnindexed_append ht hb, ?_, ?_⟩
  · intro payload l
    rcases payload with ⟨u, m⟩
    cases u <;> cases m <;> rfl
  · intro payload l
    rcases payload with ⟨u, m⟩
    cases u with
    | none => cases m <;> rfl
    | some vu =>
      cases m with
      | none => rfl
      | some vm =>
        show assignLastUnindexed .left vm (assignLastUnindexed .right vu l) =
          assignLastUnindexed .right vu (assignLastUnindexed .left vm l)
        exact (assignLast_comm (by decide) vu vm l).symm

/-- Claim C4 witness: concrete no-op and assignment instances of the scan
characterization. -/
theorem applyHistoryIndexUpdate_scan_spec_witness :
    assignLastUnindexed .right 5 [msgLeftC] = [msgLeftC] ∧
    assignLastUnindexed .right 5 [msgUserA, msgUserB] =
      [msgUserA, setHistoryIndex 5 msgUserB] := by
  obtain ⟨h1, h2, _, _⟩ := applyHistoryIndexUpdate_scan_spec
  exact ⟨h1 .right 5 [msgLeftC] (by decide),
    h2 .right 5 [msgUserA] msgUserB [] (by decide) (by decide)⟩

/-- Claim C3 counterexample: with offset 1, the second index-eligible
message resolves to 2, not 3 as the claim states (the code adds the offset
to the 0-based ordinal, not to the 1-based count); and a tool-call group
carrying a known history index is not counted by the ordinal loop: a text
message preceded only by such a group resolves to 1, not 3. -/
theorem resolveHistoryIndex_cex :
    (resolveHistoryIndex [msgUserA, msgUserB] msgUserB = some 2 ∧
      resolveHistoryIndex [msgUserA, msgUserB] msgUserB ≠ some 3) ∧
    (resolveHistoryIndex [msgToolG, msgUserA] msgUserA = some 1 ∧
      resolveHistoryIndex [msgToolG, msgUserA] msgUserA ≠ some 3) := by
  decide

/-- Claim C3 (amended): resolveHistoryIndex returns the stored history index
when the message has one; otherwise, for an index-eligible target (a
plain-text message with a displayable side — tool-call groups are never
counted; those with a known index resolve through the stored-index branch),
it returns the 0-based ordinal of the target among the index-eligible
messages from the start of the transcript (the count of eligible strict
predecessors) plus the fixed offset — with offset 1 the 2nd eligible message
resolves to 2; for a target that matches no eligible entry it returns
unresolvable (null). -/
theorem resolveHistoryIndex_spec :
    (∀ (l : List Msg) (m : Msg) (i : Int), m.historyIndex = some i →
        resolveHistoryIndex l m = some i) ∧
    (∀ (l1 l2 : List Msg) (m : Msg), m.historyIndex = none →
        isEditableTextMessage m = true →
        (∀ x ∈ l1, isEditableTextMessage x = true → x.id ≠ m.id) →
        resolveHistoryIndex (l1 ++ m :: l2) m =
          some ((l1.countP isEditableTextMessage : Int) + HISTORY_MESSAGE_OFFSET)) ∧
    (∀ (l : List Msg) (m : Msg), m.historyIndex = none →
        (∀ x ∈ l, isEditableTextMessage x = true → x.id ≠ m.id) →
        resolveHistoryIndex l m = none) := by
  refine ⟨?_, ?_, ?_⟩
  · intro l m i h
    simp [resolveHistoryIndex, h]
  · intro l1 l2 m hnone hm hids
    rw [resolveHistoryIndex, hnone,
      resolveHistoryIndexGo_found hm rfl l1 l2 (-1) hids]
    have harith : (-1 : Int) + (l1.countP isEditableTextMessage : Int) + 1 +
        HISTORY_MESSAGE_OFFSET =
        (l1.countP isEditableTextMessage : Int) + HISTORY_MESSAGE_OFFSET := by ring
    rw [harith]
  · intro l m hnone hids
    rw [resolveHistoryIndex, hnone, resolveHistoryIndexGo_of_not_found l (-1) hids]

/-- Claim C3 witness: the stored-index branch, the 2nd-eligible-message
ordinal (resolving to 2 with offset 1), and the unresolvable case, at
concrete transcripts. -/
theorem resolveHistoryIndex_spec_witness :
    resolveHistoryIndex [msgUserA, msgStored9] msgStored9 = some 9 ∧
    resolveHistoryIndex [msgUserA, msgUserB] msgUserB = some 2 ∧
    resolveHistoryIndex [msgUserA, msgTips] msgTips = none := by
  obtain ⟨h1, h2, h3⟩ := resolveHistoryIndex_spec
  refine ⟨h1 _ msgStored9 9 rfl, ?_, h3 [msgUserA, msgTips] msgTips rfl (by decide)⟩
  have := h2 [msgUserA] [] msgUserB rfl (by decide) (by decide)
  simpa using this

/-- Claim C6: for every content event, onStreamEvent applies exactly the
first matching rule: an absorbed preview-navigation event produces no
effects; otherwise the event is republished exactly once, as the final
effect; a clear_history event clears the store and then republishes; a
history_index_update event runs reconciliation and then republishes; a
thought event is republished only and never persisted; any other event is
mapped by the transform function and, when a message results, upserted by
message identity before the republish. -/
theorem onStreamEvent_dispatch_spec (ph : StreamEvent → Bool)
    (tr : StreamEvent → Option Msg) (v : StreamEvent) :
    (ph v = true → onStreamEvent ph tr v = []) ∧
    (ph v = false → emittedEvents (onStreamEvent ph tr v) = [v] ∧
        (onStreamEvent ph tr v).getLast? = some (.emitStream v)) ∧
    (ph v = false → v.type = "clear_history" →
        onStreamEvent ph tr v = [.clearStore, .emitStream v] ∧
        ∀ store, applyBridgeEffects (onStreamEvent ph tr v) store = []) ∧
    (ph v = false → v.type = "history_index_update" →
        onStreamEvent ph tr v = [.applyHistory v.histPayload, .emitStream v] ∧
        ∀ store, applyBridgeEffects (onStreamEvent ph tr v) store =
          applyHistoryIndexUpdate v.histPayload store) ∧
    (ph v = false → v.type = "thought" →
        onStreamEvent ph tr v = [.emitStream v] ∧
        ∀ store, applyBridgeEffects (onStreamEvent ph tr v) store = store) ∧
    (ph v = false → v.type ≠ "clear_history" → v.type ≠ "history_index_update" →
        v.type ≠ "thought" →
        (∀ m, tr v = some m → onStreamEvent ph tr v = [.upsertStore m, .emitStream v] ∧
            ∀ store, applyBridgeEffects (onStreamEvent ph tr v) store =
              addOrUpdateMessage store m) ∧
        (tr v = none → onStreamEvent ph tr v = [.emitStream v])) := by
  refine ⟨?_, ?_, ?_, ?_, ?_, ?_⟩
  · intro h
    simp [onStreamEvent, h]
  · intro h
    rw [onStreamEvent]
    simp only [h, Bool.false_eq_true, if_false]
    split
    · exact ⟨rfl, rfl⟩
    · split
      · exact ⟨rfl, rfl⟩
      · split
        · exact ⟨rfl, rfl⟩
        · cases htr : tr v <;> simp [emittedEvents]
  · intro h hv
    have hc : (v.type == "clear_history") = true := beq_iff_eq.mpr hv
    have he : onStreamEvent ph tr v = [.clearStore, .emitStream v] := by
      rw [onStreamEvent]
      simp [h, hc]
    exact ⟨he, fun store => by rw [he]; rfl⟩
  · intro h hv
    have hc : (v.type == "clear_history") = false := by
      rw [hv]; decide
    have hh : (v.type == "history_index_update") = true := beq_iff_eq.mpr hv
    have he : onStreamEvent ph tr v = [.applyHistory v.histPayload, .emitStream v] := by
      rw [onStreamEvent]
      simp [h, hc, hh]
    exact ⟨he, fun store => by rw [he]; rfl⟩
  · intro h hv
    have hc : (v.type == "clear_history") = false := by
      rw [hv]; decide
    have hh : (v.type == "history_index_update") = false := by
      rw [hv]; decide
    have ht : (v.type == "thought") = true := beq_iff_eq.mpr hv
    have he : onStreamEvent ph tr v = [.emitStream v] := by
      rw [onStreamEvent]
      simp [h, hc, hh, ht]
    exact ⟨he, fun store => by rw [he]; rfl⟩
  · intro h h1 h2 h3
    have hc : (v.type == "clear_history") = false := beq_eq_false_iff_ne.mpr h1
    have hh : (v.type == "history_index_update") = false := beq_eq_false_iff_ne.mpr h2
    have ht : (v.type == "thought") = false := beq_eq_false_iff_ne.mpr h3
    constructor
    · intro m hm
      have he : onStreamEvent ph tr v = [.upsertStore m, .emitStream v] := by
        rw [onStreamEvent]
        simp [h, hc, hh, ht, hm]
      exact ⟨he, fun store => by rw [he]; rfl⟩
    · intro hm
      rw [onStreamEvent]
      simp [h, hc, hh, ht, hm]

/-- Claim C6 witness: the clear_history rule and the transform-and-upsert
rule at concrete events, under a transparent preview handler. -/
theorem onStreamEvent_dispatch_spec_witness :
    onStreamEvent (fun _ => false) (fun _ => none) evClear =
      [.clearStore, .emitStream evClear] ∧
    onStreamEvent (fun _ => false) (fun _ => some msgUserA) evContent =
      [.upsertStore msgUserA, .emitStream evContent] := by
  refine ⟨((onStreamEvent_dispatch_spec _ _ evClear).2.2.1 rfl rfl).1, ?_⟩
  exact (((onStreamEvent_dispatch_spec _ _ evContent).2.2.2.2.2 rfl (by decide)
    (by decide) (by decide)).1 msgUserA rfl).1

/-- Claim C7: when the bootstrap succeeds, a sendMessage call with non-empty
content that is not a slash-command and a non-empty localId performs, before
the remote dispatch and regardless of whether that dispatch later succeeds
or fails, the persistence of a right-side user message with that id followed
by the synthetic user-content republish; and for slash-command content
(such as "/help") no user message is ever persisted, whatever the bootstrap
or dispatch outcome. -/
theorem sendMessage_persists_user_before_dispatch :
    (∀ (a : AgentHandle) (dispatch : DispatchOutcome) (now : Nat) (cid : String)
        (p : SendMessageParams) (i : String),
      p.msgId = some i → i ≠ "" → p.content ≠ "" → isSlashCommand p.content = false →
        (sendMessage (.ok a) dispatch now cid p).1.take 3 =
          [.persistUser (mkUserMessage cid now p), .emitUserContent i p.content,
            .dispatchRemote p] ∧
        (mkUserMessage cid now p).position = .right ∧
        (mkUserMessage cid now p).id = i) ∧
    (∀ (initResult : StartOutcome) (dispatch : DispatchOutcome) (now : Nat)
        (cid : String) (p : SendMessageParams) (m : Msg),
      isSlashCommand p.content = true →
        SendEffect.persistUser m ∉ (sendMessage initResult dispatch now cid p).1) := by
  constructor
  · intro a dispatch now cid p i h1 h2 h3 h4
    have hp : shouldPersistUser p = true := by
      simp [shouldPersistUser, optStringTruthy, h1, h2, h3, h4]
    have hid : (mkUserMessage cid now p).id = i := by
      simp [mkUserMessage, h1]
    refine ⟨?_, rfl, hid⟩
    cases dispatch <;> simp [sendMessage, hp, h1]
  · intro initResult dispatch now cid p m h
    have hp : shouldPersistUser p = false := by
      simp [shouldPersistUser, h]
    cases initResult <;> cases dispatch <;> simp [sendMessage, hp]

/-- Claim C7 witness: a concrete non-slash send with a localId persists and
republishes before the (failing) dispatch; a concrete "/help" send persists
no user message. -/
theorem sendMessage_persists_user_before_dispatch_witness :
    (sendMessage (.ok { conversationId := "c1" }) (.failed "boom") 7 "c1"
        { content := "hello", msgId := some "m1" }).1.take 3 =
      [.persistUser (mkUserMessage "c1" 7 { content := "hello", msgId := some "m1" }),
        .emitUserContent "m1" "hello",
        .dispatchRemote { content := "hello", msgId := some "m1" }] ∧
    SendEffect.persistUser (mkUserMessage "c1" 7 { content := "/help", msgId := some "m1" }) ∉
      (sendMessage (.ok { conversationId := "c1" }) .ok 7 "c1"
        { content := "/help", msgId := some "m1" }).1 := by
  obtain ⟨h1, h2⟩ := sendMessage_persists_user_before_dispatch
  exact ⟨(h1 _ _ 7 "c1" _ "m1" rfl (by decide) (by decide) (by decide)).1,
    h2 _ _ 7 "c1" _ _ (by decide)⟩

/-- Claim C10: a sendMessage call that omits the localId persists no user
message and emits no synthetic user-content event, even for non-empty
non-slash content, but the content is still dispatched to the remote
agent. -/
theorem sendMessage_no_localId_no_persist (a : AgentHandle) (dispatch : DispatchOutcome)
    (now : Nat) (cid : String) (p : SendMessageParams) (hp : p.msgId = none) :
    (∀ m : Msg, SendEffect.persistUser m ∉ (sendMessage (.ok a) dispatch now cid p).1) ∧
    (∀ i c : String,
        SendEffect.emitUserContent i c ∉ (sendMessage (.ok a) dispatch now cid p).1) ∧
    SendEffect.dispatchRemote p ∈ (sendMessage (.ok a) dispatch now cid p).1 := by
  have hs : shouldPersistUser p = false := by
    simp [shouldPersistUser, optStringTruthy, hp]
  cases dispatch <;> simp [sendMessage, hs]

/-- Claim C10 witness: a concrete localId-less send with non-empty non-slash
content dispatches without persisting. -/
theorem sendMessage_no_localId_no_persist_witness :
    SendEffect.dispatchRemote { content := "hello" } ∈
      (sendMessage (.ok { conversationId := "c1" }) .ok 3 "c1" { content := "hello" }).1 :=
  (sendMessage_no_localId_no_persist { conversationId := "c1" } .ok 3 "c1"
    { content := "hello" } rfl).2.2

/-- Claim C8: for editMessage and regenerateMessage, a successful RPC whose
response carries a (truthy) new session id makes the bridge adopt that id as
the active session in the returned state (so subsequent mutation calls
target it), leaving the Transcript Store untouched; a failed RPC, a failed
bootstrap, or a missing active session leaves the session id and the
Transcript Store completely unchanged. -/
theorem mutation_session_adoption (a : AgentHandle)
    (rpc : RpcOutcome (Option AcpSessionUpdateResult)) (st : SessionState) :
    (∀ (r : AcpSessionUpdateResult) (nid : String),
        optStringTruthy st.sessionId = true → rpc = .ok (some r) →
        r.newSessionId = some nid → nid ≠ "" →
        editMessage (.ok a) rpc st = (.ok (some r), { st with sessionId := some nid }) ∧
        regenerateMessage (.ok a) rpc st =
          (.ok (some r), { st with sessionId := some nid }) ∧
        (editMessage (.ok a) rpc st).2.store = st.store ∧
        (regenerateMessage (.ok a) rpc st).2.store = st.store) ∧
    (∀ e, rpc = .error e →
        (editMessage (.ok a) rpc st).2 = st ∧
        (regenerateMessage (.ok a) rpc st).2 = st) ∧
    (∀ einit, (editMessage (.error einit) rpc st).2 = st ∧
        (regenerateMessage (.error einit) rpc st).2 = st) ∧
    (optStringTruthy st.sessionId = false →
        (editMessage (.ok a) rpc st).2 = st ∧
        (regenerateMessage (.ok a) rpc st).2 = st) := by
  refine ⟨?_, ?_, ?_, ?_⟩
  · intro r nid hsess hrpc hnid hne
    have htr : optStringTruthy r.newSessionId = true := by
      rw [hnid]
      simp [optStringTruthy, hne]
    subst hrpc
    have htr2 : optStringTruthy (some nid) = true := by simp [optStringTruthy, hne]
    unfold editMessage regenerateMessage
    simp [hsess, hnid, htr2]
  · intro e hrpc
    subst hrpc
    unfold editMessage regenerateMessage
    by_cases hsess : optStringTruthy st.sessionId = true <;> simp [hsess]
  · intro einit
    unfold editMessage regenerateMessage
    exact ⟨rfl, rfl⟩
  · intro hsess
    unfold editMessage regenerateMessage
    simp [hsess]

/-- Claim C8 witness: a concrete fork response with newSessionId s2 is
adopted, and a concrete RPC failure leaves state untouched. -/
theorem mutation_session_adoption_witness :
    editMessage (.ok { conversationId := "c1" })
        (.ok (some { success := true, newSessionId := some "s2" }))
        { sessionId := some "s1", store := [msgUserA] } =
      (.ok (some { success := true, newSessionId := some "s2" }),
        { sessionId := some "s2", store := [msgUserA] }) ∧
    (regenerateMessage (.ok { conversationId := "c1" }) (.error "rpc down")
        { sessionId := some "s1", store := [msgUserA] }).2 =
      { sessionId := some "s1", store := [msgUserA] } := by
  refine ⟨?_, ?_⟩
  · exact ((mutation_session_adoption { conversationId := "c1" } _ _).1
      { success := true, newSessionId := some "s2" } "s2"
      (by decide) rfl rfl (by decide)).1
  · exact ((mutation_session_adoption { conversationId := "c1" } _ _).2.1
      "rpc down" rfl).2

/-- Claim C9 counterexample: completeCommand("/ch") with no active session
does not return an empty suggestion list — the bridge provider answers from
the static command list, yielding the four "/chat ..." suggestions
(successfully, so the "not an error" part does hold). -/
theorem completeCommand_empty_cex :
    (completeCommandProvider none "/ch" false false (.ok [])).success = true ∧
    (completeCommandProvider none "/ch" false false (.ok [])).suggestions.length = 4 ∧
    (completeCommandProvider none "/ch" false false (.ok [])).suggestions ≠ [] := by
  decide

/-- Claim C9 (amended): a completeCommand call with no active session
returns a successful (non-error, non-raising) result whose suggestions are
the static built-in commands filtered by case-insensitive prefix — possibly
non-empty, e.g. four entries for "/ch" — rather than an empty list; with an
active session the query is forwarded: the provider returns the manager's
outcome, and the manager's request carries the session id exactly when one
is (truthily) set, yielding the remote suggestions or the empty list when
the response is absent. -/
theorem completeCommand_degrade_spec :
    (∀ (query : String) (tf ta : Bool) (mgr : RpcOutcome (List Suggestion)),
        completeCommandProvider none query tf ta mgr =
          { success := true, suggestions := filterStatic query, msg := none }) ∧
    (∀ (sid query : String) (mgr : RpcOutcome (List Suggestion)), sid ≠ "" →
        (∀ s, mgr = .ok s →
          completeCommandProvider (some sid) query true true mgr =
            { success := true, suggestions := s, msg := none }) ∧
        (∀ e, mgr = .error e →
          completeCommandProvider (some sid) query true true mgr =
            { success := false, suggestions := [], msg := some e })) ∧
    (∀ sid : String, sid ≠ "" → completeRequestSessionId (some sid) = some sid) ∧
    completeRequestSessionId none = none ∧
    (∀ e, completeCommandMgr (.error e) = .error e) ∧
    completeCommandMgr (.ok none) = .ok [] ∧
    (∀ s, completeCommandMgr (.ok (some s)) = .ok s) := by
  refine ⟨?_, ?_, ?_, rfl, fun e => rfl, rfl, fun s => rfl⟩
  · intro query tf ta mgr
    unfold completeCommandProvider
    simp [optStringTruthy]
  · intro sid query mgr hne
    have ht : optStringTruthy (some sid) = true := by simp [optStringTruthy, hne]
    constructor
    · intro s hmgr
      subst hmgr
      unfold completeCommandProvider
      simp [ht]
    · intro e hmgr
      subst hmgr
      unfold completeCommandProvider
      simp [ht]
  · intro sid hne
    unfold completeRequestSessionId
    simp [optStringTruthy, hne]

/-- Claim C9 witness: the static branch at a concrete query, and a concrete
forwarded session id. -/
theorem completeCommand_degrade_spec_witness :
    completeCommandProvider none "/xy" false false (.ok []) =
      { success := true, suggestions := filterStatic "/xy", msg := none } ∧
    completeRequestSessionId (some "s1") = some "s1" := by
  obtain ⟨h1, _, h3, _⟩ := completeCommand_degrade_spec
  exact ⟨h1 "/xy" false false (.ok []), h3 "s1" (by decide)⟩

end AionUi
